import Mathlib

/-!
Verification of the classification and rule-evaluation engine of the
agent-router service, embedded shallowly from the Rust sources
(`src/types.rs`, `src/classifier.rs`, `src/rules.rs`).

The snapshot's `rules.rs` is a stale revision: it reads fields
(`user_prompt`, `trigger`) and a `Condition::GitLifecycle` variant that no
longer exist in `types.rs`, and it lacks the functions
`evaluate_file_pattern` / `evaluate_file_regex` / `evaluate_prompt_regex` /
`evaluate_branch_regex` that `classifier.rs` calls.  The current revision of
the rule-evaluation module is therefore missing from the snapshot; those
definitions are modelled from the specification and are marked
"Modelled from the spec" below.  Everything else is translated from the
present sources.

Glob and regular-expression engines are external crates (`glob`, `regex`);
they are abstracted as a `PatternCompiler`: a pair of partial compilation
functions returning an optional matcher, mirroring
`Pattern::new(p) : Result<Pattern, _>` and `Regex::new(p) : Result<Regex, _>`.
-/

namespace AgentRouter

/-- `GitContext` from src/types.rs. -/
structure GitContext where
  branch : String
  changed_files : List String
  staged_files : List String
  tag : Option String
deriving DecidableEq, Repr

/-- `ClassificationInput` from src/types.rs. -/
structure ClassificationInput where
  task : String
  intent : String
  original_prompt : Option String
  associated_files : Option (List String)
  git_context : Option GitContext
  agent_config_path : Option String
  rules_config_path : Option String
  llm_tags_path : Option String
deriving DecidableEq, Repr

/-- `Condition` from src/types.rs (current revision: no `GitLifecycle`). -/
inductive Condition where
  | FilePattern (p : String)
  | FileRegex (p : String)
  | PromptRegex (p : String)
  | BranchRegex (p : String)
  | LlmTag (t : String)
deriving DecidableEq, Repr

/-- `RuleConditions` from src/types.rs. -/
inductive RuleConditions where
  | Single (c : Condition)
  | AnyOf (l : List RuleConditions)
  | AllOf (l : List RuleConditions)

/-- `Rule` from src/types.rs. -/
structure Rule where
  description : Option String
  conditions : RuleConditions
  route_to_subagents : List String

/-- `RulesConfig` from src/types.rs. -/
structure RulesConfig where
  rules : List Rule

/-- `AgentDefinition` from src/types.rs (priority is a u8, default 50). -/
structure AgentDefinition where
  name : String
  description : String
  instructions : Option String
  priority : Nat
deriving DecidableEq, Repr

/-- `UserConfig` from src/types.rs. -/
structure UserConfig where
  agents : List AgentDefinition
deriving DecidableEq, Repr

/-- `AgentRecommendation` from src/types.rs. -/
structure AgentRecommendation where
  name : String
  reason : String
deriving DecidableEq, Repr

/-- `ClassificationResult` from src/types.rs. -/
structure ClassificationResult where
  agents : List AgentRecommendation
  reasoning : String
  method : String
  llm_tags : Option (List String)
deriving DecidableEq, Repr

/-- `Trigger` from src/types.rs. -/
structure Trigger where
  name : String
  description : String
deriving DecidableEq, Repr

/-- `InstructionContext` from src/types.rs. -/
structure InstructionContext where
  instructions : Option String
  files : List String
  confidence : Nat
  priority : Nat
deriving DecidableEq, Repr

/-- `AgentInfo` from src/types.rs. -/
structure AgentInfo where
  name : String
  description : String
deriving DecidableEq, Repr

/-- `Instruction` from src/types.rs. -/
structure Instruction where
  trigger : Trigger
  context : InstructionContext
  route_to_agent : AgentInfo
deriving DecidableEq, Repr

/-- `InstructionsResponse` from src/types.rs. -/
structure InstructionsResponse where
  instructions : List Instruction
deriving DecidableEq, Repr

/-- `RuleMatchInfo` from src/classifier.rs. -/
structure RuleMatchInfo where
  trigger_type : String
  trigger_value : String
deriving DecidableEq, Repr

/-- Abstraction of the external `glob` and `regex` crates: compiling a
pattern either yields a total matcher on strings or fails (`none`),
mirroring `glob::Pattern::new` and `regex::Regex::new` returning `Result`. -/
structure PatternCompiler where
  compileGlob : String → Option (String → Bool)
  compileRegex : String → Option (String → Bool)

/-! ## Input validation (src/types.rs, `ClassificationInput::validate`) -/

/-- `MAX_PROMPT_LENGTH` from src/types.rs. -/
def MAX_PROMPT_LENGTH : Nat := 10000

/-- `MAX_FILES_COUNT` from src/types.rs. -/
def MAX_FILES_COUNT : Nat := 100

/-- `MAX_FILE_PATH_LENGTH` from src/types.rs. -/
def MAX_FILE_PATH_LENGTH : Nat := 1000

/-- Rust `String::len` counts UTF-8 bytes. -/
def byteLen (s : String) : Nat := s.utf8ByteSize

/-- `ClassificationInput::validate` from src/types.rs: a chain of early
returns, one per limit check, in source order.  Error messages are
abbreviated (the claims only concern the Ok/Err outcome). -/
def validate (input : ClassificationInput) : Except String Unit :=
  if byteLen input.task > MAX_PROMPT_LENGTH then .error "task too long"
  else if byteLen input.intent > MAX_PROMPT_LENGTH then .error "intent too long"
  else if input.original_prompt.any
      (fun p => byteLen p > MAX_PROMPT_LENGTH) then
    .error "original_prompt too long"
  else if input.associated_files.any
      (fun files => files.length > MAX_FILES_COUNT) then
    .error "Too many associated_files"
  else if input.associated_files.any
      (fun files => files.any (fun f => byteLen f > MAX_FILE_PATH_LENGTH)) then
    .error "File path too long"
  else if input.git_context.any
      (fun ctx =>
        ctx.changed_files.length + ctx.staged_files.length > MAX_FILES_COUNT) then
    .error "Too many files"
  else if input.git_context.any
      (fun ctx => (ctx.changed_files ++ ctx.staged_files).any
        (fun f => byteLen f > MAX_FILE_PATH_LENGTH)) then
    .error "File path too long"
  else if input.git_context.any (fun ctx => byteLen ctx.branch > 200) then
    .error "branch name too long"
  else if input.agent_config_path.any
      (fun p => byteLen p > MAX_FILE_PATH_LENGTH) then
    .error "agent_config_path too long"
  else if input.rules_config_path.any
      (fun p => byteLen p > MAX_FILE_PATH_LENGTH) then
    .error "rules_config_path too long"
  else if input.llm_tags_path.any
      (fun p => byteLen p > MAX_FILE_PATH_LENGTH) then
    .error "llm_tags_path too long"
  else .ok ()

/-! ## Leaf evaluation

The current revision of src/rules.rs (the one `classifier.rs` compiles
against) is missing from the snapshot; the four leaf evaluators are
modelled from the spec. -/

/-- Modelled from the spec: `evaluate_file_pattern` in the current
src/rules.rs is missing from the snapshot (called from
classifier.rs:345).  Spec section 4.1: "`FilePattern(glob)`: matches if
`associated_files` is non-empty and glob matches at least one path
string"; malformed patterns are treated as non-matching. -/
def evaluate_file_pattern (pc : PatternCompiler) (pattern : String)
    (input : ClassificationInput) : Bool :=
  match pc.compileGlob pattern with
  | none => false
  | some m => (input.associated_files.getD []).any m

/-- Modelled from the spec: `evaluate_file_regex` in the current
src/rules.rs is missing from the snapshot (called from
classifier.rs:355).  Spec section 4.1: "`FileRegex(pattern)`: same file
set; matches if the compiled pattern matches at least one path". -/
def evaluate_file_regex (pc : PatternCompiler) (pattern : String)
    (input : ClassificationInput) : Bool :=
  match pc.compileRegex pattern with
  | none => false
  | some m => (input.associated_files.getD []).any m

/-- Modelled from the spec: `evaluate_prompt_regex` in the current
src/rules.rs is missing from the snapshot (called from
classifier.rs:365).  Spec section 4.1: "`PromptRegex(pattern)`: matches
if the compiled pattern matches `task`, OR `intent`, OR (if present)
`original_prompt`". -/
def evaluate_prompt_regex (pc : PatternCompiler) (pattern : String)
    (input : ClassificationInput) : Bool :=
  match pc.compileRegex pattern with
  | none => false
  | some m =>
    m input.task || m input.intent ||
      (match input.original_prompt with
       | some p => m p
       | none => false)

/-- Modelled from the spec: `evaluate_branch_regex` in the current
src/rules.rs is missing from the snapshot (called from
classifier.rs:375).  Spec section 4.1: "`BranchRegex(pattern)`: matches
only if `git_context` is present and the compiled pattern matches
`branch`". -/
def evaluate_branch_regex (pc : PatternCompiler) (pattern : String)
    (input : ClassificationInput) : Bool :=
  match input.git_context with
  | none => false
  | some ctx =>
    match pc.compileRegex pattern with
    | none => false
    | some m => m ctx.branch

/-- Modelled from the spec: single-leaf dispatch of the current
src/rules.rs `evaluate_condition` (spec section 4.1 leaf semantics;
`LlmTag(name)` matches if the name is in the supplied tag set). -/
def evaluate_condition (pc : PatternCompiler) (c : Condition)
    (input : ClassificationInput) (llm_tags : List String) : Bool :=
  match c with
  | .FilePattern p => evaluate_file_pattern pc p input
  | .FileRegex p => evaluate_file_regex pc p input
  | .PromptRegex p => evaluate_prompt_regex pc p input
  | .BranchRegex p => evaluate_branch_regex pc p input
  | .LlmTag t => llm_tags.contains t

mutual

/-- Modelled from the spec: recursive tree evaluation of the current
src/rules.rs `evaluate_conditions` (spec section 4.1: `AnyOf` = logical
OR over children in listed order, `AllOf` = logical AND). -/
def evaluate_conditions (pc : PatternCompiler) (conds : RuleConditions)
    (input : ClassificationInput) (llm_tags : List String) : Bool :=
  match conds with
  | .Single c => evaluate_condition pc c input llm_tags
  | .AnyOf l => evaluate_conditions_any pc l input llm_tags
  | .AllOf l => evaluate_conditions_all pc l input llm_tags

/-- Short-circuit OR over a child list (`Iterator::any`). -/
def evaluate_conditions_any (pc : PatternCompiler) (l : List RuleConditions)
    (input : ClassificationInput) (llm_tags : List String) : Bool :=
  match l with
  | [] => false
  | c :: rest =>
    evaluate_conditions pc c input llm_tags ||
      evaluate_conditions_any pc rest input llm_tags

/-- Short-circuit AND over a child list (`Iterator::all`). -/
def evaluate_conditions_all (pc : PatternCompiler) (l : List RuleConditions)
    (input : ClassificationInput) (llm_tags : List String) : Bool :=
  match l with
  | [] => true
  | c :: rest =>
    evaluate_conditions pc c input llm_tags &&
      evaluate_conditions_all pc rest input llm_tags

end

mutual

/-- `rule_contains_llm_tags` from src/rules.rs: tree-wide existence check
for an `LlmTag` leaf (the `GitLifecycle` case of the stale revision is
gone from the current `Condition`). -/
def rule_contains_llm_tags (conds : RuleConditions) : Bool :=
  match conds with
  | .Single c =>
    match c with
    | .LlmTag _ => true
    | _ => false
  | .AnyOf l => rule_contains_llm_tags_list l
  | .AllOf l => rule_contains_llm_tags_list l

/-- Existence check over a child list (`Iterator::any`). -/
def rule_contains_llm_tags_list (l : List RuleConditions) : Bool :=
  match l with
  | [] => false
  | c :: rest => rule_contains_llm_tags c || rule_contains_llm_tags_list rest

end

/-- The push-if-absent accumulation used by `apply_rules` and
`apply_llm_tag_rules` in src/rules.rs:
`if !agents.contains(agent) { agents.push(agent.clone()) }`. -/
def addAgents (toAdd : List String) (acc : List String) : List String :=
  toAdd.foldl (fun acc a => if acc.contains a then acc else acc ++ [a]) acc

/-- Modelled from the spec: `apply_rules` of the current src/rules.rs
(spec section 4.3 file/branch/prompt pass): evaluate every rule with an
empty tag set; for each matching rule append its target agents if not
already present (first-seen order, cross-rule dedup). -/
def apply_rules (pc : PatternCompiler) (input : ClassificationInput)
    (rules_config : RulesConfig) : List String :=
  rules_config.rules.foldl
    (fun acc rule =>
      if evaluate_conditions pc rule.conditions input [] then
        addAgents rule.route_to_subagents acc
      else acc)
    []

/-- Modelled from the spec: the minimal request object used by the tag
pass ("a request object with all file/prompt/branch fields empty",
spec section 4.3; the stale src/rules.rs builds the analogous
`dummy_input` with empty strings and `None` fields). -/
def dummy_input : ClassificationInput :=
  { task := ""
    intent := ""
    original_prompt := none
    associated_files := none
    git_context := none
    agent_config_path := none
    rules_config_path := none
    llm_tags_path := none }

/-- Modelled from the spec: `apply_llm_tag_rules` of the current
src/rules.rs (spec section 4.3 tag pass): filter to rules whose tree
contains an `LlmTag` leaf anywhere, evaluate them against the empty
request with the supplied tags, same dedup/order contract as
`apply_rules`. -/
def apply_llm_tag_rules (pc : PatternCompiler) (llm_tags : List String)
    (rules_config : RulesConfig) : List String :=
  rules_config.rules.foldl
    (fun acc rule =>
      if rule_contains_llm_tags rule.conditions then
        if evaluate_conditions pc rule.conditions dummy_input llm_tags then
          addAgents rule.route_to_subagents acc
        else acc
      else acc)
    []

/-! ## Classification strategy controller (src/classifier.rs) -/

/-- The prefix test underlying Rust `str::contains`: does `p` lead `s`? -/
def leadsWith : List Char → List Char → Bool
  | [], _ => true
  | _ :: _, [] => false
  | p :: ps, c :: cs => p == c && leadsWith ps cs

/-- Substring occurrence at any position, modelling Rust `str::contains`. -/
def subAt (p : List Char) : List Char → Bool
  | [] => leadsWith p []
  | c :: cs => leadsWith p (c :: cs) || subAt p cs

/-- Rust `str::contains(pattern)` on whole strings. -/
def strContains (s pat : String) : Bool := subAt pat.data s.data

/-- `is_high_confidence` from src/classifier.rs:479-499 (the `_agents`
argument is unused in the source and omitted here): associated_files
non-empty, or git changed_files non-empty, or the lowercased intent
contains "commit" or "pull_request". -/
def is_high_confidence (input : ClassificationInput) : Bool :=
  let has_associated_files :=
    match input.associated_files with
    | some f => !f.isEmpty
    | none => false
  let has_git_files :=
    match input.git_context with
    | some ctx => !ctx.changed_files.isEmpty
    | none => false
  let intent_lower := input.intent.toLower
  let has_lifecycle_intent :=
    strContains intent_lower "commit" || strContains intent_lower "pull_request"
  has_associated_files || has_git_files || has_lifecycle_intent

/-- Outcome of one `classify` call, extended with observability flags for
the two collaborators: `tag_collaborator_called` records whether
`model_manager.identify_tags` was reached, `direct_collaborator_called`
whether a direct-classification collaborator was reached (no call site
exists in src/classifier.rs, so it can only ever be `false`). -/
structure ClassifyOutcome where
  result : ClassificationResult
  tag_collaborator_called : Bool
  direct_collaborator_called : Bool

/-- `Classifier::classify` from src/classifier.rs:77-168, with the
tag-identification collaborator abstracted as the list `oracle_tags` it
would return, and config loading (out-of-scope collaborator) replaced by
the already-resolved `rules_config`.  Stage order follows the source:
validate, fast rule pass with the high-confidence gate, otherwise tag
identification, tag rule pass, merge with push-if-absent dedup; there is
no direct-classification fallback (empty merged list is returned as-is). -/
def classify (pc : PatternCompiler) (oracle_tags : List String)
    (input : ClassificationInput) (rules_config : RulesConfig) :
    Except String ClassifyOutcome :=
  match validate input with
  | .error e => .error ("Input validation failed: " ++ e)
  | .ok _ =>
    let rule_based_agents := apply_rules pc input rules_config
    if !rule_based_agents.isEmpty && is_high_confidence input then
      .ok
        { result :=
            { agents := rule_based_agents.map
                (fun name => { name, reason := "Matched file pattern or trigger" })
              reasoning := "Clear rule-based matches"
              method := "rules"
              llm_tags := none }
          tag_collaborator_called := false
          direct_collaborator_called := false }
    else
      let llm_tags := oracle_tags
      let tag_based_agents := apply_llm_tag_rules pc llm_tags rules_config
      let all_agents := addAgents tag_based_agents rule_based_agents
      .ok
        { result :=
            { agents := all_agents.map
                (fun name => { name, reason := "Matched via rules or LLM tags" })
              reasoning := "Rules + LLM semantic tags"
              method := "rules+llm-tags"
              llm_tags := some llm_tags }
          tag_collaborator_called := true
          direct_collaborator_called := false }

/-! ## Instruction builder (src/classifier.rs, enhanced mode) -/

/-- `Classifier::evaluate_condition_with_details` from
src/classifier.rs:337-395: leaf evaluation returning trigger provenance. -/
def evaluate_condition_with_details (pc : PatternCompiler) (c : Condition)
    (input : ClassificationInput) (llm_tags : List String) :
    Option RuleMatchInfo :=
  match c with
  | .FilePattern p =>
    if evaluate_file_pattern pc p input then
      some { trigger_type := "file_pattern", trigger_value := p }
    else none
  | .FileRegex p =>
    if evaluate_file_regex pc p input then
      some { trigger_type := "file_regex", trigger_value := p }
    else none
  | .PromptRegex p =>
    if evaluate_prompt_regex pc p input then
      some { trigger_type := "prompt_regex", trigger_value := p }
    else none
  | .BranchRegex p =>
    if evaluate_branch_regex pc p input then
      some { trigger_type := "branch_regex", trigger_value := p }
    else none
  | .LlmTag t =>
    if llm_tags.contains t then
      some { trigger_type := "llm_tag", trigger_value := t }
    else none

mutual

/-- `Classifier::evaluate_rule_with_details` from src/classifier.rs:301-334:
`AnyOf` returns the first matching child's info; `AllOf` fails if any
child fails and otherwise returns the first child's info. -/
def evaluate_rule_with_details (pc : PatternCompiler) (conds : RuleConditions)
    (input : ClassificationInput) (llm_tags : List String) :
    Option RuleMatchInfo :=
  match conds with
  | .Single c => evaluate_condition_with_details pc c input llm_tags
  | .AnyOf l => evaluate_rule_any pc l input llm_tags
  | .AllOf l => evaluate_rule_all pc l input llm_tags

/-- The `AnyOf` loop of src/classifier.rs:311-318: return the first
`Some`. -/
def evaluate_rule_any (pc : PatternCompiler) (l : List RuleConditions)
    (input : ClassificationInput) (llm_tags : List String) :
    Option RuleMatchInfo :=
  match l with
  | [] => none
  | c :: rest =>
    match evaluate_rule_with_details pc c input llm_tags with
    | some info => some info
    | none => evaluate_rule_any pc rest input llm_tags

/-- The `AllOf` loop of src/classifier.rs:319-332: `first_match` keeps the
first child's info, any failing child aborts with `None`; on an empty
child list `first_match` is still `None`. -/
def evaluate_rule_all (pc : PatternCompiler) (l : List RuleConditions)
    (input : ClassificationInput) (llm_tags : List String) :
    Option RuleMatchInfo :=
  match l with
  | [] => none
  | c :: rest =>
    match evaluate_rule_with_details pc c input llm_tags with
    | none => none
    | some info =>
      if evaluate_rule_all_matches pc rest input llm_tags then some info
      else none

/-- Whether every condition in the remaining `AllOf` children matches
(the rest of the loop of src/classifier.rs:319-332, whose own infos are
discarded). -/
def evaluate_rule_all_matches (pc : PatternCompiler) (l : List RuleConditions)
    (input : ClassificationInput) (llm_tags : List String) : Bool :=
  match l with
  | [] => true
  | c :: rest =>
    (evaluate_rule_with_details pc c input llm_tags).isSome &&
      evaluate_rule_all_matches pc rest input llm_tags

end

/-- `Classifier::file_matches_condition` from src/classifier.rs:429-443:
only file leaves can match an individual file; compile failure means
non-match (`unwrap_or(false)`). -/
def file_matches_condition (pc : PatternCompiler) (c : Condition)
    (file : String) : Bool :=
  match c with
  | .FilePattern p =>
    match pc.compileGlob p with
    | some m => m file
    | none => false
  | .FileRegex p =>
    match pc.compileRegex p with
    | some m => m file
    | none => false
  | _ => false

mutual

/-- `Classifier::file_matches_conditions` from src/classifier.rs:416-426. -/
def file_matches_conditions (pc : PatternCompiler) (conds : RuleConditions)
    (file : String) : Bool :=
  match conds with
  | .Single c => file_matches_condition pc c file
  | .AnyOf l => file_matches_conds_any pc l file
  | .AllOf l => file_matches_conds_all pc l file

/-- `Iterator::any` over children. -/
def file_matches_conds_any (pc : PatternCompiler) (l : List RuleConditions)
    (file : String) : Bool :=
  match l with
  | [] => false
  | c :: rest => file_matches_conditions pc c file || file_matches_conds_any pc rest file

/-- `Iterator::all` over children. -/
def file_matches_conds_all (pc : PatternCompiler) (l : List RuleConditions)
    (file : String) : Bool :=
  match l with
  | [] => true
  | c :: rest => file_matches_conditions pc c file && file_matches_conds_all pc rest file

end

/-- `Classifier::find_matched_files` from src/classifier.rs:398-413: the
files individually satisfying the conditions; if none do, the entire
file list is returned unfiltered. -/
def find_matched_files (pc : PatternCompiler) (conds : RuleConditions)
    (files : List String) : List String :=
  let matched := files.filter (fun f => file_matches_conditions pc conds f)
  if matched.isEmpty then files else matched

/-- The Instruction record pushed at src/classifier.rs:276-291: the
rule's trigger provenance, the agent's instructions/priority, the files
matched by the rule's conditions, and confidence 85 for `llm_tag`
triggers, else 100. -/
def mkInstruction (pc : PatternCompiler) (files_for_routing : List String)
    (conds : RuleConditions) (info : RuleMatchInfo)
    (agent : AgentDefinition) : Instruction :=
  { trigger :=
      { name := info.trigger_type, description := info.trigger_value }
    context :=
      { instructions := agent.instructions
        files := find_matched_files pc conds files_for_routing
        confidence := if info.trigger_type == "llm_tag" then 85 else 100
        priority := agent.priority }
    route_to_agent :=
      { name := agent.name, description := agent.description } }

/-- The inner loop of `apply_all_rules_with_details`
(src/classifier.rs:255-293): for each target agent of one matched rule,
skip if an instruction for that agent already exists, skip silently if
the agent is not in the user config, otherwise push the instruction
built by `mkInstruction`. -/
def addInstructionsForRule (pc : PatternCompiler) (user_config : UserConfig)
    (files_for_routing : List String) (conds : RuleConditions)
    (targets : List String) (info : RuleMatchInfo)
    (acc : List Instruction) : List Instruction :=
  targets.foldl
    (fun acc agent_name =>
      if acc.any (fun i => i.route_to_agent.name == agent_name) then acc
      else
        match user_config.agents.find? (fun a => a.name == agent_name) with
        | none => acc
        | some agent =>
          acc ++ [mkInstruction pc files_for_routing conds info agent])
    acc

/-- The body of the rule loop of src/classifier.rs:250-295: skip a
non-matching rule, otherwise add instructions for its targets; the file
set for routing comes only from `associated_files`
(src/classifier.rs:247-248). -/
def applyAllStep (pc : PatternCompiler) (input : ClassificationInput)
    (llm_tags : List String) (user_config : UserConfig)
    (acc : List Instruction) (rule : Rule) : List Instruction :=
  match evaluate_rule_with_details pc rule.conditions input llm_tags with
  | none => acc
  | some info =>
    addInstructionsForRule pc user_config (input.associated_files.getD [])
      rule.conditions rule.route_to_subagents info acc

/-- `Classifier::apply_all_rules_with_details` from
src/classifier.rs:238-298: fold `applyAllStep` over the rules in
configuration order; every rule is evaluated with the LLM tags
available. -/
def apply_all_rules_with_details (pc : PatternCompiler)
    (input : ClassificationInput) (llm_tags : List String)
    (rules_config : RulesConfig) (user_config : UserConfig) :
    List Instruction :=
  rules_config.rules.foldl (applyAllStep pc input llm_tags user_config) []

/-- `Classifier::classify_enhanced` from src/classifier.rs:181-234:
validate, obtain tags from the collaborator (abstracted as
`oracle_tags`), run all rules, return the instructions (empty is valid,
no fallback). -/
def classify_enhanced (pc : PatternCompiler) (oracle_tags : List String)
    (input : ClassificationInput) (rules_config : RulesConfig)
    (user_config : UserConfig) : Except String InstructionsResponse :=
  match validate input with
  | .error e => .error ("Input validation failed: " ++ e)
  | .ok _ =>
    .ok
      { instructions :=
          apply_all_rules_with_details pc input oracle_tags rules_config user_config }

/-! ## Pattern cache (spec section 4.2)

The cache itself belongs to the current revision of src/rules.rs, which is
missing from the snapshot; the whole component is modelled from the spec. -/

/-- Modelled from the spec: a pattern-cache entry is "either a compiled
matcher or a recorded failure reason" (spec section 3). -/
inductive CacheEntry where
  | compiled (m : String → Bool)
  | failed

/-- Modelled from the spec: the memo table "keyed by raw pattern string",
append-only for the process lifetime (spec sections 3, 4.2). -/
structure CacheState where
  entries : List (String × CacheEntry)

/-- Result of one cache access: the matcher (`none` for a guaranteed
non-match), the successor state, and counters for observable effects
(compilation attempts and warning-log events). -/
structure CacheStep where
  matcher : Option (String → Bool)
  state : CacheState
  compile_attempts : Nat
  log_events : Nat

/-- Modelled from the spec: the cache lookup of spec section 4.2 -- a hit
returns the cached matcher, or for a cached failure a guaranteed
non-match "without re-attempting compilation or re-logging"; a miss
compiles once and inserts either the matcher or the failure marker,
logging one warning on failure. -/
def cache_get_or_compile (compile : String → Option (String → Bool))
    (st : CacheState) (p : String) : CacheStep :=
  match st.entries.find? (fun e => e.1 == p) with
  | some (_, .compiled m) =>
    { matcher := some m, state := st, compile_attempts := 0, log_events := 0 }
  | some (_, .failed) =>
    { matcher := none, state := st, compile_attempts := 0, log_events := 0 }
  | none =>
    match compile p with
    | some m =>
      { matcher := some m
        state := { entries := st.entries ++ [(p, .compiled m)] }
        compile_attempts := 1
        log_events := 0 }
    | none =>
      { matcher := none
        state := { entries := st.entries ++ [(p, .failed)] }
        compile_attempts := 1
        log_events := 1 }

/-! ## Helper lemmas -/

/-- Invariant preservation through `List.foldl`. -/
theorem foldl_preserve {α β : Type} (f : β → α → β) (Inv : β → Prop)
    (h : ∀ b a, Inv b → Inv (f b a)) :
    ∀ (l : List α) (b : β), Inv b → Inv (l.foldl f b) := by
  intro l
  induction l with
  | nil => intro b hb; simpa using hb
  | cons x t ih => intro b hb; simpa using ih (f b x) (h b x hb)

theorem addAgents_mem (l : List String) (acc : List String) (a : String) :
    a ∈ addAgents l acc ↔ a ∈ acc ∨ a ∈ l := by
  induction l generalizing acc with
  | nil => simp [addAgents]
  | cons b t ih =>
    by_cases hbm : b ∈ acc
    · have h1 : addAgents (b :: t) acc = addAgents t acc := by
        simp [addAgents, hbm]
      rw [h1, ih]
      constructor
      · rintro (h | h)
        · exact Or.inl h
        · exact Or.inr (List.mem_cons_of_mem _ h)
      · rintro (h | h)
        · exact Or.inl h
        · rcases List.mem_cons.mp h with rfl | h
          · exact Or.inl hbm
          · exact Or.inr h
    · have h1 : addAgents (b :: t) acc = addAgents t (acc ++ [b]) := by
        simp [addAgents, hbm]
      rw [h1, ih]
      simp only [List.mem_append, List.mem_cons, List.mem_singleton]
      tauto

theorem addAgents_nodup (l : List String) (acc : List String)
    (h : acc.Nodup) : (addAgents l acc).Nodup := by
  induction l generalizing acc with
  | nil => simpa [addAgents] using h
  | cons b t ih =>
    by_cases hbm : b ∈ acc
    · have h1 : addAgents (b :: t) acc = addAgents t acc := by
        simp [addAgents, hbm]
      rw [h1]; exact ih acc h
    · have h1 : addAgents (b :: t) acc = addAgents t (acc ++ [b]) := by
        simp [addAgents, hbm]
      rw [h1]
      exact ih (acc ++ [b]) (by simp [List.nodup_append, h, hbm])

theorem addAgents_eq_filter (l : List String) (acc : List String)
    (h : l.Nodup) :
    addAgents l acc = acc ++ l.filter (fun a => !acc.contains a) := by
  induction l generalizing acc with
  | nil => simp [addAgents]
  | cons b t ih =>
    have hbt : b ∉ t := (List.nodup_cons.mp h).1
    have ht : t.Nodup := (List.nodup_cons.mp h).2
    by_cases hbm : b ∈ acc
    · have h1 : addAgents (b :: t) acc = addAgents t acc := by
        simp [addAgents, hbm]
      rw [h1, ih acc ht]
      simp [List.filter_cons, hbm]
    · have h1 : addAgents (b :: t) acc = addAgents t (acc ++ [b]) := by
        simp [addAgents, hbm]
      rw [h1, ih (acc ++ [b]) ht]
      have hfilter :
          t.filter (fun a => !(acc ++ [b]).contains a) =
            t.filter (fun a => !acc.contains a) := by
        apply List.filter_congr
        intro a ha
        have hab : a ≠ b := fun hEq => hbt (hEq ▸ ha)
        have hmem : a ∈ acc ++ [b] ↔ a ∈ acc := by simp [hab]
        simp [hmem]
      rw [hfilter]
      simp [List.filter_cons, hbm]

/-! ## Claim theorems -/

/-- A pattern compiler on which every compilation fails; used to
instantiate universally quantified theorems at a concrete point. -/
def pcNone : PatternCompiler :=
  { compileGlob := fun _ => none, compileRegex := fun _ => none }

/-- C1: for every request, `FilePattern` and `FileRegex` leaves are
evaluated only against the request's `associated_files`: when
`associated_files` is absent or empty, such a leaf never matches, for
every value of `git_context` (in particular regardless of
`changed_files`/`staged_files`). -/
theorem claim_C1 (pc : PatternCompiler) (p : String)
    (input : ClassificationInput) (tags : List String)
    (h : input.associated_files = none ∨ input.associated_files = some []) :
    ∀ gc : Option GitContext,
      evaluate_condition pc (.FilePattern p)
        { input with git_context := gc } tags = false ∧
      evaluate_condition pc (.FileRegex p)
        { input with git_context := gc } tags = false := by
  intro gc
  constructor
  · cases hc : pc.compileGlob p with
    | none => simp [evaluate_condition, evaluate_file_pattern, hc]
    | some m =>
      rcases h with h | h <;>
        simp [evaluate_condition, evaluate_file_pattern, hc, h]
  · cases hc : pc.compileRegex p with
    | none => simp [evaluate_condition, evaluate_file_regex, hc]
    | some m =>
      rcases h with h | h <;>
        simp [evaluate_condition, evaluate_file_regex, hc, h]

theorem claim_C1_witness :
    evaluate_condition pcNone (Condition.FilePattern "*.ts")
      { dummy_input with
          git_context := some ⟨"main", ["app.ts"], ["app.ts"], none⟩ } [] =
        false ∧
    evaluate_condition pcNone (Condition.FileRegex "ts$")
      { dummy_input with
          git_context := some ⟨"main", ["app.ts"], ["app.ts"], none⟩ } [] =
        false :=
  ⟨(claim_C1 pcNone "*.ts" dummy_input [] (Or.inl rfl)
      (some ⟨"main", ["app.ts"], ["app.ts"], none⟩)).1,
   (claim_C1 pcNone "ts$" dummy_input [] (Or.inl rfl)
      (some ⟨"main", ["app.ts"], ["app.ts"], none⟩)).2⟩

/-- C2: a `PromptRegex(pattern)` leaf matches a request iff the compiled
pattern matches `task`, or `intent`, or (when present) `original_prompt`. -/
theorem claim_C2 (pc : PatternCompiler) (p : String)
    (input : ClassificationInput) (tags : List String)
    (m : String → Bool) (h : pc.compileRegex p = some m) :
    (evaluate_condition pc (.PromptRegex p) input tags = true ↔
      m input.task = true ∨ m input.intent = true ∨
        ∃ op, input.original_prompt = some op ∧ m op = true) := by
  cases ho : input.original_prompt with
  | none => simp [evaluate_condition, evaluate_prompt_regex, h, ho, Bool.or_eq_true]
  | some op =>
    simp [evaluate_condition, evaluate_prompt_regex, h, ho, Bool.or_eq_true,
      or_assoc]

/-- A pattern compiler whose regexes test for one fixed literal;
`compileRegex` mirrors a successfully compiled pattern. -/
def pcLit : PatternCompiler :=
  { compileGlob := fun _ => none
    compileRegex := fun _ => some (fun s => s == "review code") }

theorem claim_C2_witness :
    (evaluate_condition pcLit (Condition.PromptRegex "review")
        { task := "review code", intent := "assist", original_prompt := none,
          associated_files := none, git_context := none,
          agent_config_path := none, rules_config_path := none,
          llm_tags_path := none } [] = true ↔
      (fun s => s == "review code") "review code" = true ∨
        (fun s => s == "review code") "assist" = true ∨
        ∃ op, (none : Option String) = some op ∧
          (fun s => s == "review code") op = true) :=
  claim_C2 pcLit "review"
    { task := "review code", intent := "assist", original_prompt := none,
      associated_files := none, git_context := none,
      agent_config_path := none, rules_config_path := none,
      llm_tags_path := none } [] (fun s => s == "review code") rfl

/-- C6: a malformed glob or regex pattern (one whose compilation fails)
makes every leaf that uses it evaluate to non-match, in the rule
evaluator and in the per-file matcher alike; evaluation is a total
function, so no error is surfaced. -/
theorem claim_C6 (pc : PatternCompiler) (pg pr : String)
    (hg : pc.compileGlob pg = none) (hr : pc.compileRegex pr = none) :
    ∀ (input : ClassificationInput) (tags : List String) (f : String),
      evaluate_condition pc (.FilePattern pg) input tags = false ∧
      evaluate_condition pc (.FileRegex pr) input tags = false ∧
      evaluate_condition pc (.PromptRegex pr) input tags = false ∧
      evaluate_condition pc (.BranchRegex pr) input tags = false ∧
      file_matches_condition pc (.FilePattern pg) f = false ∧
      file_matches_condition pc (.FileRegex pr) f = false := by
  intro input tags f
  refine ⟨?_, ?_, ?_, ?_, ?_, ?_⟩
  · simp [evaluate_condition, evaluate_file_pattern, hg]
  · simp [evaluate_condition, evaluate_file_regex, hr]
  · simp [evaluate_condition, evaluate_prompt_regex, hr]
  · cases hgc : input.git_context <;>
      simp [evaluate_condition, evaluate_branch_regex, hr, hgc]
  · simp [file_matches_condition, hg]
  · simp [file_matches_condition, hr]

theorem claim_C6_witness :
    evaluate_condition pcNone (Condition.FilePattern "[invalid") dummy_input [] =
        false ∧
    evaluate_condition pcNone (Condition.FileRegex "[invalid(") dummy_input [] =
        false ∧
    evaluate_condition pcNone (Condition.PromptRegex "[invalid(") dummy_input [] =
        false ∧
    evaluate_condition pcNone (Condition.BranchRegex "[invalid(") dummy_input [] =
        false ∧
    file_matches_condition pcNone (Condition.FilePattern "[invalid") "a.ts" =
        false ∧
    file_matches_condition pcNone (Condition.FileRegex "[invalid(") "a.ts" =
        false :=
  claim_C6 pcNone "[invalid" "[invalid(" rfl rfl dummy_input [] "a.ts"

/-- C9: compiling the same invalid pattern twice through the cache
produces exactly one warning event in total; both accesses return a
guaranteed non-match, and the second access performs no compilation
attempt and no logging. -/
theorem claim_C9 (compile : String → Option (String → Bool))
    (st : CacheState) (p : String)
    (hc : compile p = none)
    (hmiss : st.entries.find? (fun e => e.1 == p) = none) :
    (cache_get_or_compile compile st p).matcher = none ∧
    (cache_get_or_compile compile
        (cache_get_or_compile compile st p).state p).matcher = none ∧
    (cache_get_or_compile compile st p).log_events = 1 ∧
    (cache_get_or_compile compile
        (cache_get_or_compile compile st p).state p).log_events = 0 ∧
    (cache_get_or_compile compile
        (cache_get_or_compile compile st p).state p).compile_attempts = 0 ∧
    (cache_get_or_compile compile st p).log_events +
        (cache_get_or_compile compile
          (cache_get_or_compile compile st p).state p).log_events = 1 := by
  have h1 : cache_get_or_compile compile st p =
      { matcher := none
        state := { entries := st.entries ++ [(p, .failed)] }
        compile_attempts := 1
        log_events := 1 } := by
    simp [cache_get_or_compile, hmiss, hc]
  have hfind : (st.entries ++ [(p, CacheEntry.failed)]).find?
      (fun e => e.1 == p) = some (p, CacheEntry.failed) := by
    rw [List.find?_append, hmiss]
    simp
  have h2 : cache_get_or_compile compile
      { entries := st.entries ++ [(p, CacheEntry.failed)] } p =
      { matcher := none
        state := { entries := st.entries ++ [(p, .failed)] }
        compile_attempts := 0
        log_events := 0 } := by
    simp [cache_get_or_compile, hfind]
  rw [h1]
  simp [h2]

theorem claim_C9_witness :
    (cache_get_or_compile (fun _ => none) ⟨[]⟩ "[invalid(").matcher = none ∧
    (cache_get_or_compile (fun _ => none)
        (cache_get_or_compile (fun _ => none) ⟨[]⟩ "[invalid(").state
        "[invalid(").matcher = none ∧
    (cache_get_or_compile (fun _ => none) ⟨[]⟩ "[invalid(").log_events = 1 ∧
    (cache_get_or_compile (fun _ => none)
        (cache_get_or_compile (fun _ => none) ⟨[]⟩ "[invalid(").state
        "[invalid(").log_events = 0 ∧
    (cache_get_or_compile (fun _ => none)
        (cache_get_or_compile (fun _ => none) ⟨[]⟩ "[invalid(").state
        "[invalid(").compile_attempts = 0 ∧
    (cache_get_or_compile (fun _ => none) ⟨[]⟩ "[invalid(").log_events +
        (cache_get_or_compile (fun _ => none)
          (cache_get_or_compile (fun _ => none) ⟨[]⟩ "[invalid(").state
          "[invalid(").log_events = 1 :=
  claim_C9 (fun _ => none) ⟨[]⟩ "[invalid(" rfl rfl

theorem eval_all_matches_of_forall (pc : PatternCompiler)
    (l : List RuleConditions) (input : ClassificationInput)
    (tags : List String)
    (h : ∀ x ∈ l, (evaluate_rule_with_details pc x input tags).isSome = true) :
    evaluate_rule_all_matches pc l input tags = true := by
  induction l with
  | nil => simp [evaluate_rule_all_matches]
  | cons c rest ih =>
    rw [evaluate_rule_all_matches]
    simp only [Bool.and_eq_true]
    exact ⟨h c (List.mem_cons_self c rest),
      ih fun x hx => h x (List.mem_cons_of_mem c hx)⟩

/-- C7: when an `AllOf` node matches (every child matches), the match
provenance returned is that of the first child in listed order. -/
theorem claim_C7 (pc : PatternCompiler) (c : RuleConditions)
    (rest : List RuleConditions) (input : ClassificationInput)
    (tags : List String)
    (h : ∀ x ∈ c :: rest, (evaluate_rule_with_details pc x input tags).isSome = true) :
    evaluate_rule_with_details pc (.AllOf (c :: rest)) input tags =
      evaluate_rule_with_details pc c input tags := by
  have hc := h c (List.mem_cons_self c rest)
  obtain ⟨info, hinfo⟩ := Option.isSome_iff_exists.mp hc
  have hrest : evaluate_rule_all_matches pc rest input tags = true :=
    eval_all_matches_of_forall pc rest input tags
      fun x hx => h x (List.mem_cons_of_mem c hx)
  rw [evaluate_rule_with_details, evaluate_rule_all, hinfo, hrest]
  simp [hinfo]

theorem claim_C7_witness :
    evaluate_rule_with_details pcNone
        (RuleConditions.AllOf
          [.Single (.LlmTag "security"), .Single (.LlmTag "typescript")])
        dummy_input ["security", "typescript"] =
      evaluate_rule_with_details pcNone
        (RuleConditions.Single (Condition.LlmTag "security"))
        dummy_input ["security", "typescript"] :=
  claim_C7 pcNone (.Single (.LlmTag "security"))
    [.Single (.LlmTag "typescript")] dummy_input ["security", "typescript"]
    (by decide)

/-- C3: when the no-tag rule pass is non-empty and the confidence
heuristic holds, `classify` returns immediately with method "rules",
reasoning "Clear rule-based matches", one recommendation per matched
agent with reason "Matched file pattern or trigger", and the
tag-identification collaborator is never called. -/
theorem claim_C3 (pc : PatternCompiler) (oracle_tags : List String)
    (input : ClassificationInput) (rules_config : RulesConfig)
    (hv : validate input = .ok ())
    (hne : apply_rules pc input rules_config ≠ [])
    (hhc : is_high_confidence input = true) :
    classify pc oracle_tags input rules_config =
      .ok
        { result :=
            { agents := (apply_rules pc input rules_config).map
                (fun name => { name, reason := "Matched file pattern or trigger" })
              reasoning := "Clear rule-based matches"
              method := "rules"
              llm_tags := none }
          tag_collaborator_called := false
          direct_collaborator_called := false } := by
  have hempty : (apply_rules pc input rules_config).isEmpty = false := by
    cases hl : apply_rules pc input rules_config with
    | nil => exact absurd hl hne
    | cons a t => simp [List.isEmpty]
  rw [classify, hv]
  simp [hempty, hhc]

/-- A compiler recognising exactly the glob "*auth*" as the predicate
"path mentions auth", for concrete instantiations. -/
def pcAuth : PatternCompiler :=
  { compileGlob := fun p =>
      if p = "*auth*" then some (fun s => strContains s "auth") else none
    compileRegex := fun _ => none }

/-- A concrete high-confidence request carrying one associated file. -/
def inputAuth : ClassificationInput :=
  { task := "Fix login bug"
    intent := "help with task"
    original_prompt := none
    associated_files := some ["src/auth.ts"]
    git_context := none
    agent_config_path := none
    rules_config_path := none
    llm_tags_path := none }

/-- A concrete one-rule configuration routing auth files to the security
auditor. -/
def cfgAuth : RulesConfig :=
  { rules :=
      [{ description := none
         conditions := .Single (.FilePattern "*auth*")
         route_to_subagents := ["security-auditor"] }] }

theorem claim_C3_witness :
    classify pcAuth ["ignored-tag"] inputAuth cfgAuth =
      .ok
        { result :=
            { agents := (apply_rules pcAuth inputAuth cfgAuth).map
                (fun name => { name, reason := "Matched file pattern or trigger" })
              reasoning := "Clear rule-based matches"
              method := "rules"
              llm_tags := none }
          tag_collaborator_called := false
          direct_collaborator_called := false } :=
  claim_C3 pcAuth ["ignored-tag"] inputAuth cfgAuth rfl (by decide) (by decide)

theorem apply_rules_nodup (pc : PatternCompiler) (input : ClassificationInput)
    (cfg : RulesConfig) : (apply_rules pc input cfg).Nodup := by
  refine foldl_preserve _ List.Nodup ?_ cfg.rules [] List.nodup_nil
  intro acc rule hacc
  by_cases hc : evaluate_conditions pc rule.conditions input [] = true
  · simpa [hc] using addAgents_nodup rule.route_to_subagents acc hacc
  · simpa [hc] using hacc

theorem apply_llm_tag_rules_nodup (pc : PatternCompiler) (tags : List String)
    (cfg : RulesConfig) : (apply_llm_tag_rules pc tags cfg).Nodup := by
  refine foldl_preserve _ List.Nodup ?_ cfg.rules [] List.nodup_nil
  intro acc rule hacc
  by_cases h1 : rule_contains_llm_tags rule.conditions = true
  · by_cases h2 : evaluate_conditions pc rule.conditions dummy_input tags = true
    · simpa [h1, h2] using addAgents_nodup rule.route_to_subagents acc hacc
    · simpa [h1, h2] using hacc
  · simpa [h1] using hacc

/-- C4: when `classify` does not take the fast path, it returns the
fast-pass agents first with the tag-pass agents appended (cross-list
dedup preserving first-seen order, hence no duplicate agent name), with
method "rules+llm-tags", reasoning "Rules + LLM semantic tags", and
`llm_tags` set to the obtained tags; an empty merged list yields this
same valid result, and the direct-classification collaborator is never
called. -/
theorem claim_C4 (pc : PatternCompiler) (oracle_tags : List String)
    (input : ClassificationInput) (rules_config : RulesConfig)
    (hv : validate input = .ok ())
    (hslow : apply_rules pc input rules_config = [] ∨
      is_high_confidence input = false) :
    classify pc oracle_tags input rules_config =
      .ok
        { result :=
            { agents :=
                (apply_rules pc input rules_config ++
                  (apply_llm_tag_rules pc oracle_tags rules_config).filter
                    (fun a => !(apply_rules pc input rules_config).contains a)).map
                  (fun name => { name, reason := "Matched via rules or LLM tags" })
              reasoning := "Rules + LLM semantic tags"
              method := "rules+llm-tags"
              llm_tags := some oracle_tags }
          tag_collaborator_called := true
          direct_collaborator_called := false } ∧
    (apply_rules pc input rules_config ++
        (apply_llm_tag_rules pc oracle_tags rules_config).filter
          (fun a => !(apply_rules pc input rules_config).contains a)).Nodup := by
  have hmerge :
      addAgents (apply_llm_tag_rules pc oracle_tags rules_config)
          (apply_rules pc input rules_config) =
        apply_rules pc input rules_config ++
          (apply_llm_tag_rules pc oracle_tags rules_config).filter
            (fun a => !(apply_rules pc input rules_config).contains a) :=
    addAgents_eq_filter _ _ (apply_llm_tag_rules_nodup pc oracle_tags rules_config)
  have hcond : (!(apply_rules pc input rules_config).isEmpty &&
      is_high_confidence input) = false := by
    rcases hslow with hempty | hlow
    · simp [hempty]
    · simp [hlow]
  constructor
  · rw [classify, hv]
    simp only [hcond, Bool.false_eq_true, if_false, hmerge]
  · rw [← hmerge]
    exact addAgents_nodup _ _ (apply_rules_nodup pc input rules_config)

/-- A concrete one-rule configuration keyed purely on a semantic tag. -/
def cfgTagOnly : RulesConfig :=
  { rules :=
      [{ description := none
         conditions := .Single (.LlmTag "testing")
         route_to_subagents := ["test-engineer"] }] }

theorem claim_C4_witness :
    classify pcNone ["testing"] dummy_input cfgTagOnly =
      .ok
        { result :=
            { agents :=
                (apply_rules pcNone dummy_input cfgTagOnly ++
                  (apply_llm_tag_rules pcNone ["testing"] cfgTagOnly).filter
                    (fun a => !(apply_rules pcNone dummy_input cfgTagOnly).contains a)).map
                  (fun name => { name, reason := "Matched via rules or LLM tags" })
              reasoning := "Rules + LLM semantic tags"
              method := "rules+llm-tags"
              llm_tags := some ["testing"] }
          tag_collaborator_called := true
          direct_collaborator_called := false } ∧
    (apply_rules pcNone dummy_input cfgTagOnly ++
        (apply_llm_tag_rules pcNone ["testing"] cfgTagOnly).filter
          (fun a => !(apply_rules pcNone dummy_input cfgTagOnly).contains a)).Nodup :=
  claim_C4 pcNone ["testing"] dummy_input cfgTagOnly rfl (Or.inl (by decide))

theorem mem_tag_foldl (pc : PatternCompiler) (tags : List String) :
    ∀ (rules : List Rule) (acc : List String) (a : String),
      (a ∈ rules.foldl
          (fun acc rule =>
            if rule_contains_llm_tags rule.conditions then
              if evaluate_conditions pc rule.conditions dummy_input tags then
                addAgents rule.route_to_subagents acc
              else acc
            else acc) acc ↔
        a ∈ acc ∨ ∃ r ∈ rules, rule_contains_llm_tags r.conditions = true ∧
          evaluate_conditions pc r.conditions dummy_input tags = true ∧
          a ∈ r.route_to_subagents) := by
  intro rules
  induction rules with
  | nil => intro acc a; simp
  | cons r t ih =>
    intro acc a
    rw [List.foldl_cons]
    by_cases h1 : rule_contains_llm_tags r.conditions = true
    · by_cases h2 : evaluate_conditions pc r.conditions dummy_input tags = true
      · have hstep :
            (if rule_contains_llm_tags r.conditions then
              if evaluate_conditions pc r.conditions dummy_input tags then
                addAgents r.route_to_subagents acc
              else acc
            else acc) = addAgents r.route_to_subagents acc := by
          simp [h1, h2]
        rw [hstep, ih, addAgents_mem]
        simp only [List.mem_cons, exists_eq_or_imp, h1, h2, true_and]
        tauto
      · have hstep :
            (if rule_contains_llm_tags r.conditions then
              if evaluate_conditions pc r.conditions dummy_input tags then
                addAgents r.route_to_subagents acc
              else acc
            else acc) = acc := by
          simp [h1, h2]
        rw [hstep, ih]
        simp only [List.mem_cons, exists_eq_or_imp, h2]
        tauto
    · have hstep :
          (if rule_contains_llm_tags r.conditions then
            if evaluate_conditions pc r.conditions dummy_input tags then
              addAgents r.route_to_subagents acc
            else acc
          else acc) = acc := by
        simp [h1]
      rw [hstep, ih]
      simp only [List.mem_cons, exists_eq_or_imp, h1]
      tauto

theorem eval_all_false_of_mem (pc : PatternCompiler)
    (input : ClassificationInput) (tags : List String) :
    ∀ (l : List RuleConditions) (x : RuleConditions), x ∈ l →
      evaluate_conditions pc x input tags = false →
      evaluate_conditions_all pc l input tags = false := by
  intro l
  induction l with
  | nil => intro x hx; cases hx
  | cons c rest ih =>
    intro x hx hfalse
    rcases List.mem_cons.mp hx with rfl | hx
    · rw [evaluate_conditions_all, hfalse]; simp
    · rw [evaluate_conditions_all, ih x hx hfalse]; simp

/-- A pattern compiler mirroring the real `regex` crate on the empty
pattern: `Regex::new("")` succeeds and matches every string.  Glob
compilation fails on every input. -/
def pcEmptyRegex : PatternCompiler :=
  { compileGlob := fun _ => none
    compileRegex := fun p => if p = "" then some (fun _ => true) else none }

/-- A rule mixing an `LlmTag` leaf with a `PromptRegex` leaf whose pattern
matches the empty string. -/
def cfgMixed : RulesConfig :=
  { rules :=
      [{ description := none
         conditions := .AnyOf [.Single (.LlmTag "security"),
           .Single (.PromptRegex "")]
         route_to_subagents := ["agent-a"] }] }

/-- C5 counterexample: in the tag pass, with an empty tag set, a rule
containing an `LlmTag` leaf is routed purely because its non-tag
`PromptRegex("")` leaf matches the empty `task` of the dummy request --
so it is false that every non-tag leaf fails to match in this pass. -/
theorem claim_C5_cex :
    rule_contains_llm_tags
        (RuleConditions.AnyOf [.Single (.LlmTag "security"),
          .Single (.PromptRegex "")]) = true ∧
    evaluate_condition pcEmptyRegex (.PromptRegex "") dummy_input [] = true ∧
    apply_llm_tag_rules pcEmptyRegex [] cfgMixed = ["agent-a"] := by
  decide

/-- C5 (amended): the tag pass evaluates exactly those rules whose
condition tree contains an `LlmTag` leaf anywhere (tree-wide recursive
check), against a request with all file, prompt and branch fields
empty; every `FilePattern`, `FileRegex` and `BranchRegex` leaf fails to
match in this pass, so an `AllOf` mixing a tag leaf with a file leaf
never matches during the tag pass; a `PromptRegex` leaf, however,
matches in this pass exactly when its compiled pattern matches the
empty string. -/
theorem claim_C5 (pc : PatternCompiler) (tags : List String)
    (cfg : RulesConfig) :
    (∀ a, a ∈ apply_llm_tag_rules pc tags cfg ↔
        ∃ r ∈ cfg.rules, rule_contains_llm_tags r.conditions = true ∧
          evaluate_conditions pc r.conditions dummy_input tags = true ∧
          a ∈ r.route_to_subagents) ∧
    (∀ p, evaluate_condition pc (.FilePattern p) dummy_input tags = false ∧
        evaluate_condition pc (.FileRegex p) dummy_input tags = false ∧
        evaluate_condition pc (.BranchRegex p) dummy_input tags = false) ∧
    (∀ (l : List RuleConditions) (p : String),
        (RuleConditions.Single (.FilePattern p) ∈ l ∨
          RuleConditions.Single (.FileRegex p) ∈ l) →
        evaluate_conditions pc (.AllOf l) dummy_input tags = false) ∧
    (∀ p m, pc.compileRegex p = some m →
        evaluate_condition pc (.PromptRegex p) dummy_input tags = m "") := by
  have hfile : ∀ p,
      evaluate_condition pc (.FilePattern p) dummy_input tags = false := by
    intro p
    cases hc : pc.compileGlob p <;>
      simp [evaluate_condition, evaluate_file_pattern, hc, dummy_input]
  have hfileRe : ∀ p,
      evaluate_condition pc (.FileRegex p) dummy_input tags = false := by
    intro p
    cases hc : pc.compileRegex p <;>
      simp [evaluate_condition, evaluate_file_regex, hc, dummy_input]
  refine ⟨?_, ?_, ?_, ?_⟩
  · intro a
    unfold apply_llm_tag_rules
    rw [mem_tag_foldl]
    simp
  · intro p
    refine ⟨hfile p, hfileRe p, ?_⟩
    simp [evaluate_condition, evaluate_branch_regex, dummy_input]
  · intro l p hmem
    rw [evaluate_conditions]
    rcases hmem with hmem | hmem
    · exact eval_all_false_of_mem pc dummy_input tags l _ hmem
        (by rw [evaluate_conditions]; exact hfile p)
    · exact eval_all_false_of_mem pc dummy_input tags l _ hmem
        (by rw [evaluate_conditions]; exact hfileRe p)
  · intro p m hm
    simp [evaluate_condition, evaluate_prompt_regex, hm, dummy_input]

theorem claim_C5_witness :
    evaluate_conditions pcEmptyRegex
        (RuleConditions.AllOf [.Single (.LlmTag "security"),
          .Single (.FilePattern "*auth*")])
        dummy_input ["security"] = false :=
  (claim_C5 pcEmptyRegex ["security"] cfgMixed).2.2.1
    [.Single (.LlmTag "security"), .Single (.FilePattern "*auth*")]
    "*auth*" (Or.inl (by simp))

/-- The invariant carried through the instruction builder: distinct
target agent names, each resolved from the agent directory. -/
def InstInv (user_config : UserConfig) (acc : List Instruction) : Prop :=
  (acc.map (fun i => i.route_to_agent.name)).Nodup ∧
    ∀ i ∈ acc, ∃ ag ∈ user_config.agents, i.route_to_agent.name = ag.name

theorem addInstructionsForRule_inv (pc : PatternCompiler)
    (user_config : UserConfig) (files_for_routing : List String)
    (conds : RuleConditions) (info : RuleMatchInfo) :
    ∀ (targets : List String) (acc : List Instruction),
      InstInv user_config acc →
      InstInv user_config
        (addInstructionsForRule pc user_config files_for_routing conds
          targets info acc) := by
  intro targets
  induction targets with
  | nil => intro acc hacc; simpa [addInstructionsForRule] using hacc
  | cons agent_name rest ih =>
    intro acc hacc
    rw [addInstructionsForRule, List.foldl_cons]
    by_cases hdup :
        (acc.any (fun i => i.route_to_agent.name == agent_name)) = true
    · rw [if_pos hdup]
      exact ih acc hacc
    · rw [if_neg hdup]
      cases hfind : user_config.agents.find? (fun a => a.name == agent_name) with
      | none => exact ih acc hacc
      | some agent =>
        have hagent_mem : agent ∈ user_config.agents :=
          List.mem_of_find?_eq_some hfind
        have hpa := List.find?_some hfind
        have hagent_name : agent.name = agent_name := by simpa using hpa
        have hfresh : ∀ i ∈ acc, i.route_to_agent.name ≠ agent_name := by
          intro i hi hEq
          apply hdup
          rw [List.any_eq_true]
          exact ⟨i, hi, by simp [hEq]⟩
        refine ih
          (acc ++ [mkInstruction pc files_for_routing conds info agent]) ?_
        constructor
        · rw [List.map_append, List.nodup_append]
          refine ⟨hacc.1, by simp, ?_⟩
          intro x hx
          simp only [List.map_cons, List.map_nil, List.mem_singleton]
          obtain ⟨i, hi, rfl⟩ := List.mem_map.mp hx
          intro hEq
          rcases hEq with hEq
          exact hfresh i hi (by simpa [mkInstruction, hagent_name] using hEq)
        · intro i hi
          rcases List.mem_append.mp hi with hi | hi
          · exact hacc.2 i hi
          · rcases List.mem_singleton.mp hi with rfl
            exact ⟨agent, hagent_mem, rfl⟩

theorem apply_all_rules_inv (pc : PatternCompiler)
    (input : ClassificationInput) (llm_tags : List String)
    (rules_config : RulesConfig) (user_config : UserConfig) :
    InstInv user_config
      (apply_all_rules_with_details pc input llm_tags rules_config
        user_config) := by
  unfold apply_all_rules_with_details
  refine foldl_preserve _ (InstInv user_config) ?_ rules_config.rules []
    ⟨by simp, by simp⟩
  intro acc rule hacc
  unfold applyAllStep
  cases hev : evaluate_rule_with_details pc rule.conditions input llm_tags with
  | none => exact hacc
  | some info =>
    exact addInstructionsForRule_inv pc user_config _ rule.conditions info
      rule.route_to_subagents acc hacc

/-- One step of the target loop, as an equation (definitional). -/
theorem addInstructionsForRule_cons (pc : PatternCompiler)
    (user_config : UserConfig) (files_for_routing : List String)
    (conds : RuleConditions) (info : RuleMatchInfo) (t : String)
    (rest : List String) (acc : List Instruction) :
    addInstructionsForRule pc user_config files_for_routing conds
        (t :: rest) info acc =
      addInstructionsForRule pc user_config files_for_routing conds rest info
        (if acc.any (fun i => i.route_to_agent.name == t) then acc
         else
          match user_config.agents.find? (fun a => a.name == t) with
          | none => acc
          | some agent =>
            acc ++ [mkInstruction pc files_for_routing conds info agent]) :=
  rfl

/-- The target loop only appends: the accumulator is a prefix of the
result. -/
theorem addInstructions_append (pc : PatternCompiler)
    (user_config : UserConfig) (files_for_routing : List String)
    (conds : RuleConditions) (info : RuleMatchInfo) :
    ∀ (targets : List String) (acc : List Instruction),
      ∃ new, addInstructionsForRule pc user_config files_for_routing conds
        targets info acc = acc ++ new := by
  intro targets
  induction targets with
  | nil => intro acc; exact ⟨[], by simp [addInstructionsForRule]⟩
  | cons t rest ih =>
    intro acc
    rw [addInstructionsForRule_cons]
    by_cases hdup : (acc.any (fun i => i.route_to_agent.name == t)) = true
    · rw [if_pos hdup]; exact ih acc
    · rw [if_neg hdup]
      cases hfind : user_config.agents.find? (fun a => a.name == t) with
      | none => exact ih acc
      | some agent =>
        obtain ⟨new, hnew⟩ :=
          ih (acc ++ [mkInstruction pc files_for_routing conds info agent])
        refine ⟨[mkInstruction pc files_for_routing conds info agent] ++ new, ?_⟩
        show addInstructionsForRule pc user_config files_for_routing conds
            rest info
            (acc ++ [mkInstruction pc files_for_routing conds info agent]) =
          acc ++ ([mkInstruction pc files_for_routing conds info agent] ++ new)
        rw [hnew, List.append_assoc]

/-- Every element of the target loop's result is either carried over
from the accumulator or is a freshly built instruction for a target
name that is configured and not yet present. -/
theorem addInstructions_mem_of (pc : PatternCompiler)
    (user_config : UserConfig) (files_for_routing : List String)
    (conds : RuleConditions) (info : RuleMatchInfo) :
    ∀ (targets : List String) (acc : List Instruction) (i : Instruction),
      i ∈ addInstructionsForRule pc user_config files_for_routing conds
          targets info acc →
      i ∈ acc ∨
        ((∀ j ∈ acc, j.route_to_agent.name ≠ i.route_to_agent.name) ∧
         i.route_to_agent.name ∈ targets ∧
         ∃ agent,
           user_config.agents.find?
               (fun a => a.name == i.route_to_agent.name) = some agent ∧
           i = mkInstruction pc files_for_routing conds info agent) := by
  intro targets
  induction targets with
  | nil =>
    intro acc i hi
    exact Or.inl (by simpa [addInstructionsForRule] using hi)
  | cons t rest ih =>
    intro acc i hi
    rw [addInstructionsForRule_cons] at hi
    by_cases hdup : (acc.any (fun i => i.route_to_agent.name == t)) = true
    · rw [if_pos hdup] at hi
      rcases ih acc i hi with h | ⟨hfr, hmem, hrest⟩
      · exact Or.inl h
      · exact Or.inr ⟨hfr, List.mem_cons_of_mem _ hmem, hrest⟩
    · rw [if_neg hdup] at hi
      cases hfind : user_config.agents.find? (fun a => a.name == t) with
      | none =>
        rw [hfind] at hi
        have hi' : i ∈ addInstructionsForRule pc user_config files_for_routing
            conds rest info acc := hi
        rcases ih acc i hi' with h | ⟨hfr, hmem, hrest⟩
        · exact Or.inl h
        · exact Or.inr ⟨hfr, List.mem_cons_of_mem _ hmem, hrest⟩
      | some agent =>
        rw [hfind] at hi
        have hi' : i ∈ addInstructionsForRule pc user_config files_for_routing
            conds rest info
            (acc ++ [mkInstruction pc files_for_routing conds info agent]) := hi
        have hpa := List.find?_some hfind
        have hagent_name : agent.name = t := by simpa using hpa
        have hname :
            (mkInstruction pc files_for_routing conds info
              agent).route_to_agent.name = t := by
          simp [mkInstruction, hagent_name]
        rcases ih _ i hi' with h | ⟨hfr, hmem, hrest⟩
        · rcases List.mem_append.mp h with h | h
          · exact Or.inl h
          · rcases List.mem_singleton.mp h with rfl
            refine Or.inr ⟨?_, ?_, agent, ?_, rfl⟩
            · intro j hj hEq
              apply hdup
              rw [List.any_eq_true]
              exact ⟨j, hj, by simp [hEq, hname]⟩
            · rw [hname]; exact List.mem_cons_self t rest
            · rw [hname]; exact hfind
        · refine Or.inr ⟨?_, List.mem_cons_of_mem _ hmem, hrest⟩
          intro j hj
          exact hfr j (List.mem_append_left _ hj)

/-- Once a configured target name of the loop is processed, some
instruction with that name is present in the result (either it already
existed or it is added). -/
theorem addInstructions_name_exists (pc : PatternCompiler)
    (user_config : UserConfig) (files_for_routing : List String)
    (conds : RuleConditions) (info : RuleMatchInfo) :
    ∀ (targets : List String) (acc : List Instruction) (n : String),
      n ∈ targets →
      ∀ agent, user_config.agents.find? (fun a => a.name == n) = some agent →
      ∃ i ∈ addInstructionsForRule pc user_config files_for_routing conds
          targets info acc,
        i.route_to_agent.name = n := by
  intro targets
  induction targets with
  | nil => intro acc n hn; cases hn
  | cons t rest ih =>
    intro acc n hn agent hfind
    rw [addInstructionsForRule_cons]
    rcases List.mem_cons.mp hn with rfl | hn
    · by_cases hdup : (acc.any (fun i => i.route_to_agent.name == n)) = true
      · rw [if_pos hdup]
        obtain ⟨j, hj, hjn⟩ := List.any_eq_true.mp hdup
        have hjn' : j.route_to_agent.name = n := by simpa using hjn
        obtain ⟨new, hnew⟩ := addInstructions_append pc user_config
          files_for_routing conds info rest acc
        exact ⟨j, by rw [hnew]; exact List.mem_append_left _ hj, hjn'⟩
      · rw [if_neg hdup, hfind]
        have hpa := List.find?_some hfind
        have hagent_name : agent.name = n := by simpa using hpa
        obtain ⟨new, hnew⟩ := addInstructions_append pc user_config
          files_for_routing conds info rest
          (acc ++ [mkInstruction pc files_for_routing conds info agent])
        refine ⟨mkInstruction pc files_for_routing conds info agent, ?_, ?_⟩
        · show mkInstruction pc files_for_routing conds info agent ∈
            addInstructionsForRule pc user_config files_for_routing conds rest
              info
              (acc ++ [mkInstruction pc files_for_routing conds info agent])
          rw [hnew]
          exact List.mem_append_left _
            (List.mem_append_right _ (List.mem_singleton.mpr rfl))
        · simp [mkInstruction, hagent_name]
    · by_cases hdup : (acc.any (fun i => i.route_to_agent.name == t)) = true
      · rw [if_pos hdup]; exact ih acc n hn agent hfind
      · rw [if_neg hdup]
        cases hft : user_config.agents.find? (fun a => a.name == t) with
        | none => exact ih acc n hn agent hfind
        | some ag2 =>
          exact ih (acc ++ [mkInstruction pc files_for_routing conds info ag2])
            n hn agent hfind

/-- One rule step only appends instructions. -/
theorem applyAllStep_append (pc : PatternCompiler)
    (input : ClassificationInput) (llm_tags : List String)
    (user_config : UserConfig) (acc : List Instruction) (rule : Rule) :
    ∃ new, applyAllStep pc input llm_tags user_config acc rule = acc ++ new := by
  unfold applyAllStep
  cases hev : evaluate_rule_with_details pc rule.conditions input llm_tags with
  | none => exact ⟨[], by simp⟩
  | some info =>
    exact addInstructions_append pc user_config (input.associated_files.getD [])
      rule.conditions info rule.route_to_subagents acc

/-- The rule fold only appends instructions. -/
theorem applyAll_append (pc : PatternCompiler) (input : ClassificationInput)
    (llm_tags : List String) (user_config : UserConfig) :
    ∀ (rules : List Rule) (acc : List Instruction),
      ∃ new, rules.foldl (applyAllStep pc input llm_tags user_config) acc =
        acc ++ new := by
  intro rules
  induction rules with
  | nil => intro acc; exact ⟨[], by simp⟩
  | cons r0 rest ih =>
    intro acc
    rw [List.foldl_cons]
    obtain ⟨new0, h0⟩ := applyAllStep_append pc input llm_tags user_config acc r0
    obtain ⟨new1, h1⟩ := ih (applyAllStep pc input llm_tags user_config acc r0)
    exact ⟨new0 ++ new1, by rw [h1, h0, List.append_assoc]⟩

/-- First-wins attribution: every instruction in the fold's output is
either carried over from the accumulator or was built by the first rule
(in list order) that matches and names its agent -- no earlier matching
rule names that agent. -/
theorem applyAll_attr (pc : PatternCompiler) (input : ClassificationInput)
    (llm_tags : List String) (user_config : UserConfig) :
    ∀ (rules : List Rule) (acc : List Instruction) (i : Instruction),
      i ∈ rules.foldl (applyAllStep pc input llm_tags user_config) acc →
      i ∈ acc ∨
        ((∀ j ∈ acc, j.route_to_agent.name ≠ i.route_to_agent.name) ∧
         ∃ pre r post info agent,
           rules = pre ++ r :: post ∧
           evaluate_rule_with_details pc r.conditions input llm_tags =
             some info ∧
           i.route_to_agent.name ∈ r.route_to_subagents ∧
           user_config.agents.find?
               (fun a => a.name == i.route_to_agent.name) = some agent ∧
           i = mkInstruction pc (input.associated_files.getD [])
             r.conditions info agent ∧
           ∀ r' ∈ pre,
             (evaluate_rule_with_details pc r'.conditions input
               llm_tags).isSome = true →
             i.route_to_agent.name ∉ r'.route_to_subagents) := by
  intro rules
  induction rules with
  | nil => intro acc i hi; exact Or.inl (by simpa using hi)
  | cons r0 rest ih =>
    intro acc i hi
    rw [List.foldl_cons] at hi
    rcases ih (applyAllStep pc input llm_tags user_config acc r0) i hi with
      hin | ⟨hfr, pre, r, post, info, agent, hdec, hev, hname, hfind, hinst,
        hpre⟩
    · revert hin
      unfold applyAllStep
      cases hev0 : evaluate_rule_with_details pc r0.conditions input llm_tags
        with
      | none => intro hin; exact Or.inl hin
      | some info0 =>
        intro hin
        rcases addInstructions_mem_of pc user_config
            (input.associated_files.getD []) r0.conditions info0
            r0.route_to_subagents acc i hin with
          h | ⟨hfr0, hmem0, agent0, hfind0, hinst0⟩
        · exact Or.inl h
        · refine Or.inr ⟨hfr0, [], r0, rest, info0, agent0, rfl, hev0, hmem0,
            hfind0, hinst0, ?_⟩
          intro r' hr'
          cases hr'
    · have hsub : ∀ j ∈ acc,
          j ∈ applyAllStep pc input llm_tags user_config acc r0 := by
        obtain ⟨new0, h0⟩ :=
          applyAllStep_append pc input llm_tags user_config acc r0
        intro j hj
        rw [h0]
        exact List.mem_append_left _ hj
      refine Or.inr ⟨fun j hj => hfr j (hsub j hj), r0 :: pre, r, post, info,
        agent, by rw [hdec, List.cons_append], hev, hname, hfind, hinst, ?_⟩
      intro r' hr' hsome
      rcases List.mem_cons.mp hr' with rfl | hr'
      · intro hmem0
        obtain ⟨info0, hev0⟩ := Option.isSome_iff_exists.mp hsome
        obtain ⟨j, hj, hjn⟩ := addInstructions_name_exists pc user_config
          (input.associated_files.getD []) r'.conditions info0
          r'.route_to_subagents acc i.route_to_agent.name hmem0 agent hfind
        have hjstep : j ∈ applyAllStep pc input llm_tags user_config acc r' := by
          unfold applyAllStep
          rw [hev0]
          exact hj
        exact hfr j hjstep hjn
      · exact hpre r' hr' hsome

/-- Completeness: a matching rule's configured target is always
represented by some instruction in the fold's output. -/
theorem applyAll_complete (pc : PatternCompiler)
    (input : ClassificationInput) (llm_tags : List String)
    (user_config : UserConfig) :
    ∀ (rules : List Rule) (acc : List Instruction) (r : Rule), r ∈ rules →
      ∀ info,
        evaluate_rule_with_details pc r.conditions input llm_tags = some info →
      ∀ n, n ∈ r.route_to_subagents →
      ∀ agent, user_config.agents.find? (fun a => a.name == n) = some agent →
      ∃ i ∈ rules.foldl (applyAllStep pc input llm_tags user_config) acc,
        i.route_to_agent.name = n := by
  intro rules
  induction rules with
  | nil => intro acc r hr; cases hr
  | cons r0 rest ih =>
    intro acc r hr info hev n hn agent hfind
    rw [List.foldl_cons]
    rcases List.mem_cons.mp hr with rfl | hr
    · obtain ⟨j, hj, hjn⟩ := addInstructions_name_exists pc user_config
        (input.associated_files.getD []) r.conditions info
        r.route_to_subagents acc n hn agent hfind
      have hj' : j ∈ applyAllStep pc input llm_tags user_config acc r := by
        unfold applyAllStep
        rw [hev]
        exact hj
      obtain ⟨new, hnew⟩ := applyAll_append pc input llm_tags user_config rest
        (applyAllStep pc input llm_tags user_config acc r)
      exact ⟨j, by rw [hnew]; exact List.mem_append_left _ hj', hjn⟩
    · exact ih (applyAllStep pc input llm_tags user_config acc r0) r hr info
        hev n hn agent hfind

/-- C8: every `InstructionsResponse` produced by `classify_enhanced`
contains at most one Instruction per distinct target agent name; the
Instruction kept for an agent is exactly the one built from the first
matching rule in configuration order that names the agent (no earlier
matching rule names it, so later rules naming the same agent are
ignored, observable through the surviving trigger/confidence
provenance); a matching rule's configured target always yields an
Instruction; and a rule target absent from the agent directory is
skipped silently, producing neither an Instruction nor an error (every
produced Instruction resolves to a configured agent). -/
theorem claim_C8 (pc : PatternCompiler) (oracle_tags : List String)
    (input : ClassificationInput) (rules_config : RulesConfig)
    (user_config : UserConfig) (resp : InstructionsResponse)
    (h : classify_enhanced pc oracle_tags input rules_config user_config =
      .ok resp) :
    (resp.instructions.map (fun i => i.route_to_agent.name)).Nodup ∧
    (∀ i ∈ resp.instructions,
      ∃ ag ∈ user_config.agents, i.route_to_agent.name = ag.name) ∧
    (∀ i ∈ resp.instructions,
      ∃ pre r post info agent,
        rules_config.rules = pre ++ r :: post ∧
        evaluate_rule_with_details pc r.conditions input oracle_tags =
          some info ∧
        i.route_to_agent.name ∈ r.route_to_subagents ∧
        user_config.agents.find?
            (fun a => a.name == i.route_to_agent.name) = some agent ∧
        i = mkInstruction pc (input.associated_files.getD [])
          r.conditions info agent ∧
        ∀ r' ∈ pre,
          (evaluate_rule_with_details pc r'.conditions input
            oracle_tags).isSome = true →
          i.route_to_agent.name ∉ r'.route_to_subagents) ∧
    (∀ r ∈ rules_config.rules, ∀ info,
      evaluate_rule_with_details pc r.conditions input oracle_tags =
        some info →
      ∀ n, n ∈ r.route_to_subagents →
      ∀ agent, user_config.agents.find? (fun a => a.name == n) = some agent →
      ∃ i ∈ resp.instructions, i.route_to_agent.name = n) := by
  have hresp : resp.instructions =
      apply_all_rules_with_details pc input oracle_tags rules_config
        user_config := by
    unfold classify_enhanced at h
    cases hv : validate input with
    | error e => rw [hv] at h; cases h
    | ok u =>
      rw [hv] at h
      injection h with h
      rw [← h]
  have hinv := apply_all_rules_inv pc input oracle_tags rules_config user_config
  refine ⟨?_, ?_, ?_, ?_⟩
  · rw [hresp]; exact hinv.1
  · rw [hresp]; exact hinv.2
  · rw [hresp]
    intro i hi
    have hi' : i ∈ rules_config.rules.foldl
        (applyAllStep pc input oracle_tags user_config) [] := hi
    rcases applyAll_attr pc input oracle_tags user_config rules_config.rules
        [] i hi' with hin | ⟨_, hrest⟩
    · cases hin
    · exact hrest
  · intro r hr info hev n hn agent hfind
    rw [hresp]
    exact applyAll_complete pc input oracle_tags user_config
      rules_config.rules [] r hr info hev n hn agent hfind

/-- A concrete agent directory; note the second rule target
"missing-agent" is not configured. -/
def userAuth : UserConfig :=
  { agents := [{ name := "security-auditor", description := "Audits security",
                 instructions := none, priority := 90 }] }

/-- Two rules targeting the same agent plus an unconfigured agent. -/
def cfgDup : RulesConfig :=
  { rules :=
      [{ description := none
         conditions := .Single (.FilePattern "*auth*")
         route_to_subagents := ["security-auditor", "missing-agent"] },
       { description := none
         conditions := .Single (.LlmTag "security")
         route_to_subagents := ["security-auditor"] }] }

theorem claim_C8_witness :
    ((apply_all_rules_with_details pcAuth inputAuth ["security"] cfgDup
        userAuth).map (fun i => i.route_to_agent.name)).Nodup ∧
    (∀ i ∈ apply_all_rules_with_details pcAuth inputAuth ["security"] cfgDup
        userAuth,
      ∃ ag ∈ userAuth.agents, i.route_to_agent.name = ag.name) ∧
    (∀ i ∈ apply_all_rules_with_details pcAuth inputAuth ["security"] cfgDup
        userAuth,
      ∃ pre r post info agent,
        cfgDup.rules = pre ++ r :: post ∧
        evaluate_rule_with_details pcAuth r.conditions inputAuth
          ["security"] = some info ∧
        i.route_to_agent.name ∈ r.route_to_subagents ∧
        userAuth.agents.find?
            (fun a => a.name == i.route_to_agent.name) = some agent ∧
        i = mkInstruction pcAuth (inputAuth.associated_files.getD [])
          r.conditions info agent ∧
        ∀ r' ∈ pre,
          (evaluate_rule_with_details pcAuth r'.conditions inputAuth
            ["security"]).isSome = true →
          i.route_to_agent.name ∉ r'.route_to_subagents) ∧
    (∀ r ∈ cfgDup.rules, ∀ info,
      evaluate_rule_with_details pcAuth r.conditions inputAuth
        ["security"] = some info →
      ∀ n, n ∈ r.route_to_subagents →
      ∀ agent, userAuth.agents.find? (fun a => a.name == n) = some agent →
      ∃ i ∈ apply_all_rules_with_details pcAuth inputAuth ["security"] cfgDup
          userAuth,
        i.route_to_agent.name = n) :=
  claim_C8 pcAuth ["security"] inputAuth cfgDup userAuth
    ⟨apply_all_rules_with_details pcAuth inputAuth ["security"] cfgDup
      userAuth⟩ rfl

set_option maxHeartbeats 2000000 in
/-- C10: `validate` accepts exactly the requests within the declared
limits -- limits are inclusive (the source comparisons are strict):
task/intent/original_prompt at most 10000 bytes, at most 100
associated_files each at most 1000 bytes, changed plus staged files
totaling at most 100 entries each at most 1000 bytes with a branch of at
most 200 bytes, and each override path at most 1000 bytes; it errors on
any violation. -/
theorem claim_C10 (input : ClassificationInput) :
    validate input = .ok () ↔
      (byteLen input.task ≤ 10000 ∧
       byteLen input.intent ≤ 10000 ∧
       (∀ p, input.original_prompt = some p → byteLen p ≤ 10000) ∧
       (∀ fs, input.associated_files = some fs →
          fs.length ≤ 100 ∧ ∀ f ∈ fs, byteLen f ≤ 1000) ∧
       (∀ g, input.git_context = some g →
          g.changed_files.length + g.staged_files.length ≤ 100 ∧
          (∀ f ∈ g.changed_files ++ g.staged_files, byteLen f ≤ 1000) ∧
          byteLen g.branch ≤ 200) ∧
       (∀ p, input.agent_config_path = some p → byteLen p ≤ 1000) ∧
       (∀ p, input.rules_config_path = some p → byteLen p ≤ 1000) ∧
       (∀ p, input.llm_tags_path = some p → byteLen p ≤ 1000)) := by
  have option_any_true : ∀ {α : Type} (o : Option α) (f : α → Bool),
      (Option.any f o = true ↔ ∃ a, o = some a ∧ f a = true) := by
    intro α o f; cases o <;> simp
  simp only [validate, MAX_PROMPT_LENGTH, MAX_FILES_COUNT, MAX_FILE_PATH_LENGTH]
  by_cases h1 : 10000 < byteLen input.task
  · rw [if_pos h1]
    exact iff_of_false (by simp) (fun hr => absurd hr.1 (by omega))
  rw [if_neg h1]
  by_cases h2 : 10000 < byteLen input.intent
  · rw [if_pos h2]
    exact iff_of_false (by simp) (fun hr => absurd hr.2.1 (by omega))
  rw [if_neg h2]
  by_cases h3 : Option.any (fun p => decide (10000 < byteLen p))
      input.original_prompt = true
  · rw [if_pos h3]
    obtain ⟨p, hp, hf⟩ := (option_any_true _ _).mp h3
    rw [decide_eq_true_eq] at hf
    exact iff_of_false (by simp) (fun hr => absurd (hr.2.2.1 p hp) (by omega))
  rw [if_neg h3]
  by_cases h4 : Option.any (fun files => decide (100 < files.length))
      input.associated_files = true
  · rw [if_pos h4]
    obtain ⟨fs, hfs, hf⟩ := (option_any_true _ _).mp h4
    rw [decide_eq_true_eq] at hf
    exact iff_of_false (by simp)
      (fun hr => absurd (hr.2.2.2.1 fs hfs).1 (by omega))
  rw [if_neg h4]
  by_cases h5 : Option.any
      (fun files => files.any fun f => decide (1000 < byteLen f))
      input.associated_files = true
  · rw [if_pos h5]
    obtain ⟨fs, hfs, hf⟩ := (option_any_true _ _).mp h5
    obtain ⟨f, hfm, hflen⟩ := List.any_eq_true.mp hf
    rw [decide_eq_true_eq] at hflen
    exact iff_of_false (by simp)
      (fun hr => absurd ((hr.2.2.2.1 fs hfs).2 f hfm) (by omega))
  rw [if_neg h5]
  by_cases h6 : Option.any
      (fun ctx =>
        decide (100 < ctx.changed_files.length + ctx.staged_files.length))
      input.git_context = true
  · rw [if_pos h6]
    obtain ⟨g, hg, hf⟩ := (option_any_true _ _).mp h6
    rw [decide_eq_true_eq] at hf
    exact iff_of_false (by simp)
      (fun hr => absurd (hr.2.2.2.2.1 g hg).1 (by omega))
  rw [if_neg h6]
  by_cases h7 : Option.any
      (fun ctx => (ctx.changed_files ++ ctx.staged_files).any
        fun f => decide (1000 < byteLen f))
      input.git_context = true
  · rw [if_pos h7]
    obtain ⟨g, hg, hf⟩ := (option_any_true _ _).mp h7
    obtain ⟨f, hfm, hflen⟩ := List.any_eq_true.mp hf
    rw [decide_eq_true_eq] at hflen
    exact iff_of_false (by simp)
      (fun hr => absurd ((hr.2.2.2.2.1 g hg).2.1 f hfm) (by omega))
  rw [if_neg h7]
  by_cases h8 : Option.any (fun ctx => decide (200 < byteLen ctx.branch))
      input.git_context = true
  · rw [if_pos h8]
    obtain ⟨g, hg, hf⟩ := (option_any_true _ _).mp h8
    rw [decide_eq_true_eq] at hf
    exact iff_of_false (by simp)
      (fun hr => absurd (hr.2.2.2.2.1 g hg).2.2 (by omega))
  rw [if_neg h8]
  by_cases h9 : Option.any (fun p => decide (1000 < byteLen p))
      input.agent_config_path = true
  · rw [if_pos h9]
    obtain ⟨p, hp, hf⟩ := (option_any_true _ _).mp h9
    rw [decide_eq_true_eq] at hf
    exact iff_of_false (by simp)
      (fun hr => absurd (hr.2.2.2.2.2.1 p hp) (by omega))
  rw [if_neg h9]
  by_cases h10 : Option.any (fun p => decide (1000 < byteLen p))
      input.rules_config_path = true
  · rw [if_pos h10]
    obtain ⟨p, hp, hf⟩ := (option_any_true _ _).mp h10
    rw [decide_eq_true_eq] at hf
    exact iff_of_false (by simp)
      (fun hr => absurd (hr.2.2.2.2.2.2.1 p hp) (by omega))
  rw [if_neg h10]
  by_cases h11 : Option.any (fun p => decide (1000 < byteLen p))
      input.llm_tags_path = true
  · rw [if_pos h11]
    obtain ⟨p, hp, hf⟩ := (option_any_true _ _).mp h11
    rw [decide_eq_true_eq] at hf
    exact iff_of_false (by simp)
      (fun hr => absurd (hr.2.2.2.2.2.2.2 p hp) (by omega))
  rw [if_neg h11]
  refine iff_of_true rfl ⟨by omega, by omega, ?_, ?_, ?_, ?_, ?_, ?_⟩
  · intro p hp
    by_contra hgt
    exact h3 ((option_any_true _ _).mpr
      ⟨p, hp, decide_eq_true_eq.mpr (by omega)⟩)
  · intro fs hfs
    constructor
    · by_contra hgt
      exact h4 ((option_any_true _ _).mpr
        ⟨fs, hfs, decide_eq_true_eq.mpr (by omega)⟩)
    · intro f hfm
      by_contra hgt
      exact h5 ((option_any_true _ _).mpr
        ⟨fs, hfs, List.any_eq_true.mpr
          ⟨f, hfm, decide_eq_true_eq.mpr (by omega)⟩⟩)
  · intro g hg
    refine ⟨?_, ?_, ?_⟩
    · by_contra hgt
      exact h6 ((option_any_true _ _).mpr
        ⟨g, hg, decide_eq_true_eq.mpr (by omega)⟩)
    · intro f hfm
      by_contra hgt
      exact h7 ((option_any_true _ _).mpr
        ⟨g, hg, List.any_eq_true.mpr
          ⟨f, hfm, decide_eq_true_eq.mpr (by omega)⟩⟩)
    · by_contra hgt
      exact h8 ((option_any_true _ _).mpr
        ⟨g, hg, decide_eq_true_eq.mpr (by omega)⟩)
  · intro p hp
    by_contra hgt
    exact h9 ((option_any_true _ _).mpr
      ⟨p, hp, decide_eq_true_eq.mpr (by omega)⟩)
  · intro p hp
    by_contra hgt
    exact h10 ((option_any_true _ _).mpr
      ⟨p, hp, decide_eq_true_eq.mpr (by omega)⟩)
  · intro p hp
    by_contra hgt
    exact h11 ((option_any_true _ _).mpr
      ⟨p, hp, decide_eq_true_eq.mpr (by omega)⟩)

theorem claim_C10_witness : validate dummy_input = .ok () :=
  (claim_C10 dummy_input).mpr
    (by
      refine ⟨?_, ?_, ?_, ?_, ?_, ?_, ?_, ?_⟩ <;> decide)

end AgentRouter
